import Mathlib

/-
Verification of the fuzzy product-matching engine of the
rezagemcollection-product-search-api repository (src/index.js).

Strings are modelled as lists of characters (`Str`); JavaScript string
operations (`toLowerCase`, `includes`, `split(' ')`, `substring`) are
embedded as executable Lean functions on `Str`.  JavaScript numbers are
modelled exactly: lengths and indices as `Nat` (with `Math.floor(n * 0.7)`
rendered as `n * 7 / 10`, which agrees with the double-precision
computation for all realistic token lengths), prices and the similarity
score as rationals.
-/

namespace RezaGem

/-- Character strings, modelled as lists of characters. -/
abbrev Str := List Char

/-- The space character (code point 32). -/
def spaceChar : Char := Char.ofNat 32

/-- Models `String.prototype.toLowerCase` (per-character lowering). -/
def toLower (s : Str) : Str := s.map Char.toLower

/-- Helper for `strIncludes`: does `hay` start with `needle`? -/
def startsWith : Str → Str → Bool
  | _, [] => true
  | [], _ :: _ => false
  | c :: cs, d :: ds => c == d && startsWith cs ds

/-- Models `hay.includes(needle)` of JavaScript: `needle` occurs
contiguously somewhere in `hay`. -/
def strIncludes : Str → Str → Bool
  | [], needle => startsWith [] needle
  | c :: cs, needle => startsWith (c :: cs) needle || strIncludes cs needle

/-- Accumulator-based worker for `splitOnSpace`. -/
def splitOnSpaceAux : Str → Str → List Str
  | [], acc => [acc.reverse]
  | c :: rest, acc =>
    if c = spaceChar then acc.reverse :: splitOnSpaceAux rest []
    else splitOnSpaceAux rest (c :: acc)

/-- Models `s.split(' ')` of JavaScript: split on every single space,
keeping empty fragments (so a trailing space yields a final `""`). -/
def splitOnSpace (s : Str) : List Str := splitOnSpaceAux s []

/-- Models `s.substring(i, j)` of JavaScript for `i ≤ j` (the end index
is clamped to the length of the string). -/
def substringJs (s : Str) (i j : Nat) : Str := (s.take j).drop i

/-- Curried worker for `levenshteinDistance`: recursion on the first
string produces the distance function against every second string.  The
inner `go` only calls the already-computed distance function `f` of the
tail, so both recursions are structural and the definition evaluates by
kernel reduction. -/
def levFun : Str → Str → Nat
  | [] => fun t => t.length
  | c :: s =>
    let f := levFun s
    let rec go : Str → Nat
      | [] => s.length + 1
      | d :: ds =>
        if c = d then f ds
        else 1 + min (f ds) (min (go ds) (f (d :: ds)))
    go

/-- The edit distance computed by `levenshteinDistance` in src/index.js
(lines 587-613).  The source fills a dynamic-programming matrix whose
cells satisfy exactly the recurrence of `levFun` (cost 1 for insertion,
deletion and substitution, cost 0 when the characters agree). -/
def levenshteinDistance (str1 str2 : Str) : Nat := levFun str1 str2

/-- Models `calculateSimilarity` (src/index.js lines 576-584): pick the
longer of the two strings, return 1 when it is empty, and otherwise
return `(longer.length - distance) / longer.length` as an exact
rational. -/
def calculateSimilarity (str1 str2 : Str) : ℚ :=
  let longer := if str2.length < str1.length then str1 else str2
  let shorter := if str2.length < str1.length then str2 else str1
  if longer.length = 0 then 1
  else ((longer.length : ℚ) - (levenshteinDistance longer shorter : ℚ)) / (longer.length : ℚ)

/-- The fuzzy-match threshold `FUZZY_THRESHOLD = 0.6` (src/index.js line 28). -/
def FUZZY_THRESHOLD : ℚ := 6 / 10

/-- A product variant as fetched from the store (src/index.js lines
443-448): `price` is `none` when the column is NULL, `title` is `none`
when absent. -/
structure Variant where
  title : Option Str
  price : Option ℚ
  inventory_quantity : Int
  available_for_sale : Bool
  deriving DecidableEq

/-- A catalog product (src/index.js lines 452-460).  `description`,
`tags`, `image` and `imageAlt` are `none` when the underlying field is
null or undefined. -/
structure Product where
  id : Str
  title : Str
  description : Option Str
  tags : Option Str
  image : Option Str
  imageAlt : Option Str
  variants : List Variant
  deriving DecidableEq

/-- The lowercased description used in the haystack: `p.description ?
p.description.toLowerCase() : ''` (src/index.js line 493). -/
def descriptionText (p : Product) : Str :=
  match p.description with
  | some d => toLower d
  | none => []

/-- The haystack searched for matches: lowercased title, a space, and
the lowercased description (src/index.js lines 492-494). -/
def searchTextOf (p : Product) : Str :=
  toLower p.title ++ spaceChar :: descriptionText p

/-- The substring-window loop shared by both matching passes: scan
window start positions `0, ..., bound - 1` and test whether the window
`word.substring(i, i + minLen)` occurs in the haystack (src/index.js
lines 509-518 and 547-550). -/
def substringScan (searchText word : Str) (minLen bound : Nat) : Bool :=
  (List.range bound).any (fun i => strIncludes searchText (substringJs word i (i + minLen)))

/-- The similarity loop shared by both matching passes: split the
haystack on spaces and test every haystack word longer than 3
characters for similarity at least `FUZZY_THRESHOLD` (src/index.js
lines 522-531 and 552-558). -/
def similarityScan (searchText word : Str) : Bool :=
  (splitOnSpace searchText).any
    (fun sw => decide (3 < sw.length) && decide (FUZZY_THRESHOLD ≤ calculateSimilarity word sw))

/-- The match decision for one search word (the body of the
`searchWords.some` callback, src/index.js lines 497-537): exact
substring first; for words longer than 5 characters, substring windows
of length `max(5, floor(0.7 * wordLength))`, and then (behind the
inner `wordLength > 4` test, src/index.js line 521) the similarity
scan. -/
def matchToken (searchText word : Str) : Bool :=
  strIncludes searchText word ||
    (decide (5 < word.length) &&
      (substringScan searchText word (max 5 (word.length * 7 / 10))
          (word.length - max 5 (word.length * 7 / 10) + 1) ||
        (decide (4 < word.length) && similarityScan searchText word)))

/-- `hasMatch` of src/index.js line 497: does any search word match the
product's haystack? -/
def hasMatch (p : Product) (searchWords : List Str) : Bool :=
  searchWords.any (fun word => matchToken (searchTextOf p) word)

/-- The diagnostic re-check used to recompute `matchedWords` for logging
(src/index.js lines 540-561): exact substring; for words longer than 3
characters, substring windows of length `max(3, floor(0.6 * wordLength))`
with start positions up to `wordLength - floor(0.4 * wordLength)`
(windows past the end are clamped by `substring`), and then the same
similarity scan. -/
def diagToken (searchText word : Str) : Bool :=
  strIncludes searchText word ||
    (decide (3 < word.length) &&
      (substringScan searchText word (max 3 (word.length * 6 / 10))
          (word.length - word.length * 4 / 10 + 1) ||
        similarityScan searchText word))

/-- The `matchedWords` list recomputed for logging inside the filter
callback (src/index.js lines 540-561). -/
def matchedWords (p : Product) (searchWords : List Str) : List Str :=
  searchWords.filter (fun word => diagToken (searchTextOf p) word)

/-- Models `filterProductsWithFuzzy` (src/index.js lines 476-573) on a
genuine product array: with no search words, the first 20 products are
returned unfiltered; otherwise the catalog is filtered, in order, by
`hasMatch`. -/
def filterProductsWithFuzzy (products : List Product) (searchWords : List Str) : List Product :=
  if searchWords.isEmpty then products.take 20
  else products.filter (fun p => hasMatch p searchWords)

/-- The `products` argument as received over the wire: either a genuine
array or any non-array value (the `!Array.isArray(products)` case,
src/index.js line 477). -/
inductive CatalogArg where
  | array : List Product → CatalogArg
  | notArray : CatalogArg
  deriving DecidableEq

/-- `filterProductsWithFuzzy` including its defensive non-array branch
(src/index.js lines 477-479): a non-array catalog yields the empty
list. -/
def filterProductsTotal : CatalogArg → List Str → List Product
  | CatalogArg.notArray, _ => []
  | CatalogArg.array ps, searchWords => filterProductsWithFuzzy ps searchWords

/-- Concatenation of a list of strings. -/
def concatAll (l : List Str) : Str := l.foldr (fun a b => a ++ b) []

/-- The apostrophe character (code point 39). -/
def apoChar : Char := Char.ofNat 39

/-- Two-digit rendering of a number below 100 (for the cents part). -/
def twoDigits (n : Nat) : Str :=
  if n < 10 then "0".toList ++ (toString n).toList else (toString n).toList

/-- Models `parseFloat(price).toFixed(2)` (src/index.js line 652):
render a rational with exactly two decimal places, rounding half up. -/
def toFixed2 (q : ℚ) : Str :=
  if 0 ≤ q then
    let cents := (⌊q * 100 + 1 / 2⌋).toNat
    (toString (cents / 100)).toList ++ ".".toList ++ twoDigits (cents % 100)
  else
    let cents := (⌊-q * 100 + 1 / 2⌋).toNat
    "-".toList ++ (toString (cents / 100)).toList ++ ".".toList ++ twoDigits (cents % 100)

/-- The default variant label `'Standard'` (src/index.js line 656). -/
def standardLabel : Str := "Standard".toList

/-- The fallback price text (src/index.js line 652). -/
def priceOnRequest : Str := "Price on request".toList

/-- The rendered variant label: `variant.title || 'Standard'`
(src/index.js line 656); an absent or empty title falls back to the
default label. -/
def variantTitleText (v : Variant) : Str :=
  match v.title with
  | some t => if t.isEmpty then standardLabel else t
  | none => standardLabel

/-- The rendered price: `variant.price ? ... : 'Price on request'`
(src/index.js line 652); an absent or zero (falsy) price falls back to
the request text. -/
def priceText (v : Variant) : Str :=
  match v.price with
  | some q => if q = 0 then priceOnRequest else "$".toList ++ toFixed2 q
  | none => priceOnRequest

/-- The stock annotation (src/index.js lines 653-655), keyed on
`inventory_quantity > 0` only. -/
def inventoryText (v : Variant) : Str :=
  if 0 < v.inventory_quantity then
    "(In Stock - ".toList ++ (toString v.inventory_quantity).toList ++ " left)".toList
  else "(Out of Stock)".toList

/-- One rendered variant line (src/index.js lines 651-657). -/
def variantLine (v : Variant) : Str :=
  "   • ".toList ++ variantTitleText v ++ ": ".toList ++ priceText v
    ++ " ".toList ++ inventoryText v ++ "\n".toList

/-- The heading of one product block: title line plus optional image
line (src/index.js lines 642-647); a missing or empty (falsy) image
field yields no image line. -/
def productHeaderPart (p : Product) : Str :=
  "💎 ".toList ++ p.title ++ "\n".toList ++
    (match p.image with
     | some img => if img.isEmpty then [] else "🖼️ ".toList ++ img ++ "\n".toList
     | none => [])

/-- One full product block appended per displayed product (src/index.js
lines 641-661): heading, then — when the variant list is non-empty —
the lines of the first 3 variants, then a blank line. -/
def productBlock (p : Product) : Str :=
  productHeaderPart p ++
    (if 0 < p.variants.length then concatAll ((p.variants.take 3).map variantLine) else []) ++
    "\n".toList

/-- The response header `Found <N> product(s) for you:` (src/index.js
line 639). -/
def foundHeader (n : Nat) : Str :=
  "Found ".toList ++ (toString n).toList ++ " product(s) for you:\n\n".toList

/-- The overflow suffix `... and <N-20> more products available!`
(src/index.js line 664). -/
def moreSuffix (n : Nat) : Str :=
  "... and ".toList ++ (toString n).toList ++ " more products available!\n".toList

/-- The fixed closing call-to-action sentence (src/index.js line 667). -/
def callToAction : Str :=
  "Would you like more details about any of these products, or shall I help you with something else?".toList

/-- Models `searchWords.join(', ')` (src/index.js line 635). -/
def joinComma : List Str → Str
  | [] => []
  | [w] => w
  | w :: rest => w ++ ", ".toList ++ joinComma rest

/-- The empty-result message (src/index.js line 636). -/
def noResultMessage (searchWords : List Str) : Str :=
  "I couldn".toList ++ [apoChar] ++ "t find any products matching \"".toList
    ++ joinComma searchWords
    ++ "\". Please try different keywords or ask me to show you our available gemstone beads and jewelry supplies.".toList

/-- Models `formatProductResponse` (src/index.js lines 633-670) on a
genuine product array: the empty-result message, or the header followed
by the blocks of the first 20 products, the overflow suffix when more
than 20 matched, and the closing call-to-action. -/
def formatProductResponse (products : List Product) (searchWords : List Str) : Str :=
  if products.isEmpty then noResultMessage searchWords
  else
    let response := foundHeader products.length
    let response := (products.take 20).foldl (fun r p => r ++ productBlock p) response
    let response :=
      if 20 < products.length then response ++ moreSuffix (products.length - 20) else response
    response ++ callToAction

/-- A minimal concrete product used in concrete instances. -/
def tinyRuby : Product :=
  { id := "r1".toList, title := "ruby".toList, description := none, tags := none,
    image := none, imageAlt := none, variants := [] }

/-- A minimal concrete product with an 8-character title. -/
def tinyAmethyst : Product :=
  { id := "a1".toList, title := "amethyst".toList, description := none, tags := none,
    image := none, imageAlt := none, variants := [] }

/-- Unfolding equation of the edit distance when the first string is empty. -/
theorem lev_nil_left (t : Str) : levenshteinDistance [] t = t.length := rfl

/-- Unfolding equation of the edit distance when the second string is empty. -/
theorem lev_cons_nil (c : Char) (s : Str) : levenshteinDistance (c :: s) [] = s.length + 1 := rfl

/-- Unfolding equation of the edit distance on two non-empty strings:
the recurrence of the dynamic-programming matrix of src/index.js lines
598-610. -/
theorem lev_cons_cons (c d : Char) (s t : Str) :
    levenshteinDistance (c :: s) (d :: t) =
      if c = d then levenshteinDistance s t
      else 1 + min (levenshteinDistance s t)
        (min (levenshteinDistance (c :: s) t) (levenshteinDistance s (d :: t))) := rfl

/-- The edit distance never exceeds the longer length. -/
theorem lev_le (s : Str) : ∀ t : Str, levenshteinDistance s t ≤ max s.length t.length := by
  induction s with
  | nil =>
    intro t
    rw [lev_nil_left]
    exact le_max_right _ _
  | cons c cs ih =>
    intro t
    induction t with
    | nil =>
      rw [lev_cons_nil]
      simp
    | cons d ds iht =>
      rw [lev_cons_cons]
      have h1 := ih ds
      by_cases hcd : c = d
      · rw [if_pos hcd]
        refine h1.trans ?_
        simp only [List.length_cons]
        exact max_le_max (Nat.le_succ _) (Nat.le_succ _)
      · rw [if_neg hcd]
        have h2 : min (levenshteinDistance cs ds)
            (min (levenshteinDistance (c :: cs) ds) (levenshteinDistance cs (d :: ds))) ≤
              levenshteinDistance cs ds := min_le_left _ _
        simp only [List.length_cons]
        omega

/-- The edit distance is symmetric. -/
theorem lev_comm (s : Str) : ∀ t : Str, levenshteinDistance s t = levenshteinDistance t s := by
  induction s with
  | nil =>
    intro t
    cases t with
    | nil => rfl
    | cons d ds => rw [lev_nil_left, lev_cons_nil]; rfl
  | cons c cs ih =>
    intro t
    induction t with
    | nil => rw [lev_cons_nil, lev_nil_left]; rfl
    | cons d ds iht =>
      rw [lev_cons_cons, lev_cons_cons]
      by_cases hcd : c = d
      · rw [if_pos hcd, if_pos hcd.symm, ih ds]
      · rw [if_neg hcd, if_neg (fun h => hcd h.symm), ih ds, ih (d :: ds), iht]
        omega

/-- Closed form of `calculateSimilarity` in terms of the maximum length
and the (symmetric) edit distance of its two arguments. -/
theorem calculateSimilarity_eq (a b : Str) :
    calculateSimilarity a b =
      if a = [] ∧ b = [] then 1
      else (((max a.length b.length : ℕ) : ℚ) - (levenshteinDistance a b : ℚ)) /
        ((max a.length b.length : ℕ) : ℚ) := by
  simp only [calculateSimilarity]
  by_cases h : b.length < a.length
  · rw [if_pos h, if_pos h]
    have hmax : max a.length b.length = a.length := Nat.max_eq_left (le_of_lt h)
    have hne : ¬(a = [] ∧ b = []) := by
      rintro ⟨rfl, rfl⟩
      simp at h
    have hlen : a.length ≠ 0 := by
      intro h0
      omega
    rw [if_neg hlen, if_neg hne, hmax]
  · rw [if_neg h, if_neg h]
    have hle : a.length ≤ b.length := le_of_not_lt h
    have hmax : max a.length b.length = b.length := Nat.max_eq_right hle
    by_cases hb : b.length = 0
    · have hbnil : b = [] := List.length_eq_zero.mp hb
      have hanil : a = [] := List.length_eq_zero.mp (by omega)
      rw [if_pos hb, if_pos ⟨hanil, hbnil⟩]
    · have hne : ¬(a = [] ∧ b = []) := by
        rintro ⟨rfl, rfl⟩
        simp at hb
      rw [if_neg hb, if_neg hne, hmax, lev_comm b a]

/-- C6: `calculateSimilarity` always lies in the closed interval [0, 1]
and equals `(max(len a, len b) - levenshteinDistance a b) / max(len a, len b)`,
except that when both strings are empty it returns exactly 1. -/
theorem calculateSimilarity_spec (a b : Str) :
    0 ≤ calculateSimilarity a b ∧ calculateSimilarity a b ≤ 1 ∧
      calculateSimilarity a b =
        (if a = [] ∧ b = [] then 1
         else (((max a.length b.length : ℕ) : ℚ) - (levenshteinDistance a b : ℚ)) /
           ((max a.length b.length : ℕ) : ℚ)) := by
  refine ⟨?_, ?_, calculateSimilarity_eq a b⟩ <;> rw [calculateSimilarity_eq a b]
  all_goals by_cases h : a = [] ∧ b = []
  · rw [if_pos h]; norm_num
  · rw [if_neg h]
    have hM : 0 < max a.length b.length := by
      rcases Nat.eq_zero_or_pos (max a.length b.length) with h0 | h0
      · exfalso
        refine h ⟨?_, ?_⟩ <;> apply List.length_eq_zero.mp <;> omega
      · exact h0
    have hle : levenshteinDistance a b ≤ max a.length b.length := lev_le a b
    apply div_nonneg
    · rw [sub_nonneg]
      exact_mod_cast hle
    · positivity
  · rw [if_pos h]
  · rw [if_neg h]
    have hM : 0 < max a.length b.length := by
      rcases Nat.eq_zero_or_pos (max a.length b.length) with h0 | h0
      · exfalso
        refine h ⟨?_, ?_⟩ <;> apply List.length_eq_zero.mp <;> omega
      · exact h0
    have hMq : (0 : ℚ) < ((max a.length b.length : ℕ) : ℚ) := by exact_mod_cast hM
    rw [div_le_one hMq]
    have : (0 : ℚ) ≤ (levenshteinDistance a b : ℚ) := by positivity
    linarith

/-- C4: the filter is stable — its output is a subsequence of the input
catalog, in both the empty-token branch and the matching branch. -/
theorem filterProductsWithFuzzy_sublist (ps : List Product) (ws : List Str) :
    List.Sublist (filterProductsWithFuzzy ps ws) ps := by
  unfold filterProductsWithFuzzy
  split
  · exact List.take_sublist _ _
  · exact List.filter_sublist _

/-- C5: with an empty token list the filter returns the first 20
products unchanged, applying no matching at all. -/
theorem filterProductsWithFuzzy_empty_tokens (ps : List Product) :
    filterProductsWithFuzzy ps [] = ps.take 20 := rfl

/-- C9: a non-array catalog argument yields the empty result for every
token list (the defensive branch of src/index.js lines 477-479). -/
theorem filterProductsTotal_notArray (ws : List Str) :
    filterProductsTotal CatalogArg.notArray ws = [] := rfl

/-- C3: an exact substring hit is sufficient — if the haystack of a
product contains some token verbatim, the product is in the output. -/
theorem exact_substring_sufficient (ps : List Product) (ws : List Str) (p : Product) (w : Str)
    (hp : p ∈ ps) (hw : w ∈ ws) (hsub : strIncludes (searchTextOf p) w = true) :
    p ∈ filterProductsWithFuzzy ps ws := by
  have hne : ws.isEmpty = false := List.isEmpty_eq_false.mpr (List.ne_nil_of_mem hw)
  simp only [filterProductsWithFuzzy, hne, Bool.false_eq_true, if_false]
  refine List.mem_filter.mpr ⟨hp, ?_⟩
  refine List.any_eq_true.mpr ⟨w, hw, ?_⟩
  unfold matchToken
  rw [hsub]
  rfl

/-- C3 witness: a concrete exact-substring hit. -/
theorem exact_substring_sufficient_witness :
    tinyRuby ∈ filterProductsWithFuzzy [tinyRuby] ["ruby".toList] :=
  exact_substring_sufficient [tinyRuby] ["ruby".toList] tinyRuby "ruby".toList
    (by decide) (by decide) (by decide)

/-- C1 counterexample: the token `"rubby"` has length 5 > 4 and scores
0.8 ≥ 0.6 against the haystack word `"ruby"` (which is longer than 3
characters), yet the product does not match — the similarity layer sits
inside the `wordLength > 5` block, so it is never reached for tokens of
length exactly 5. -/
theorem similarity_gate_counterexample :
    4 < ("rubby".toList).length ∧
    (∃ sw ∈ splitOnSpace (searchTextOf tinyRuby),
      3 < sw.length ∧ FUZZY_THRESHOLD ≤ calculateSimilarity "rubby".toList sw) ∧
    filterProductsWithFuzzy [tinyRuby] ["rubby".toList] = [] := by
  with_unfolding_all decide

/-- C1 (amended): for every search token of length greater than 5, a
similarity score of at least the threshold against some
whitespace-delimited haystack word longer than 3 characters makes the
product match. -/
theorem similarity_layer_sufficient (ps : List Product) (ws : List Str) (p : Product) (w : Str)
    (hp : p ∈ ps) (hw : w ∈ ws) (hlen : 5 < w.length)
    (hsim : ∃ sw ∈ splitOnSpace (searchTextOf p),
      3 < sw.length ∧ FUZZY_THRESHOLD ≤ calculateSimilarity w sw) :
    p ∈ filterProductsWithFuzzy ps ws := by
  have hne : ws.isEmpty = false := List.isEmpty_eq_false.mpr (List.ne_nil_of_mem hw)
  simp only [filterProductsWithFuzzy, hne, Bool.false_eq_true, if_false]
  refine List.mem_filter.mpr ⟨hp, ?_⟩
  refine List.any_eq_true.mpr ⟨w, hw, ?_⟩
  have hsc : similarityScan (searchTextOf p) w = true := by
    unfold similarityScan
    refine List.any_eq_true.mpr ?_
    obtain ⟨sw, hmem, hlen3, hq⟩ := hsim
    exact ⟨sw, hmem, by rw [decide_eq_true hlen3, decide_eq_true hq]; rfl⟩
  unfold matchToken
  rw [hsc, decide_eq_true hlen, decide_eq_true (show 4 < w.length by omega)]
  cases strIncludes (searchTextOf p) w <;>
    cases substringScan (searchTextOf p) w (max 5 (w.length * 7 / 10))
      (w.length - max 5 (w.length * 7 / 10) + 1) <;> rfl

/-- C1 witness: the misspelled token `"amethist"` (8 characters) matches
the product titled `"amethyst"` through the similarity layer. -/
theorem similarity_layer_sufficient_witness :
    tinyAmethyst ∈ filterProductsWithFuzzy [tinyAmethyst] ["amethist".toList] :=
  similarity_layer_sufficient [tinyAmethyst] ["amethist".toList] tinyAmethyst "amethist".toList
    (by decide) (by decide) (by decide)
    ⟨"amethyst".toList, by decide, by decide, by with_unfolding_all decide⟩

/-- C2 counterexample: appending the 2-character token `"ru"` to a
non-matching token list changes the output, because the exact-substring
layer has no length gate. -/
theorem short_token_counterexample :
    ("ru".toList).length ≤ 2 ∧
    filterProductsWithFuzzy [tinyRuby] ["qqqqqq".toList] ≠
      filterProductsWithFuzzy [tinyRuby] ["qqqqqq".toList, "ru".toList] := by
  with_unfolding_all decide

/-- C2 (amended): appending a token of length at most 2 to a non-empty
token list leaves the output unchanged provided the appended token is
not a verbatim substring of any product's haystack (only the ungated
exact-substring layer can fire for such short tokens). -/
theorem short_token_insensitive (ps : List Product) (ws : List Str) (w : Str)
    (hws : ws ≠ []) (hlen : w.length ≤ 2)
    (hno : ∀ p ∈ ps, strIncludes (searchTextOf p) w = false) :
    filterProductsWithFuzzy ps (ws ++ [w]) = filterProductsWithFuzzy ps ws := by
  have hne : ws.isEmpty = false := List.isEmpty_eq_false.mpr hws
  have hne2 : (ws ++ [w]).isEmpty = false := List.isEmpty_eq_false.mpr (by simp)
  simp only [filterProductsWithFuzzy, hne, hne2, Bool.false_eq_true, if_false]
  apply List.filter_congr
  intro p hp
  unfold hasMatch
  rw [List.any_append]
  have hw0 : List.any [w] (fun word => matchToken (searchTextOf p) word) = false := by
    simp only [List.any_cons, List.any_nil, Bool.or_false]
    unfold matchToken
    rw [hno p hp, decide_eq_false (show ¬5 < w.length by omega)]
    rfl
  rw [hw0, Bool.or_false]

/-- C2 witness: appending the short token `"xq"`, which occurs in no
haystack, leaves the output unchanged. -/
theorem short_token_insensitive_witness :
    filterProductsWithFuzzy [tinyRuby] (["gem".toList] ++ ["xq".toList]) =
      filterProductsWithFuzzy [tinyRuby] ["gem".toList] :=
  short_token_insensitive [tinyRuby] ["gem".toList] "xq".toList
    (by decide) (by decide) (by decide)

/-- Left fold of block appends equals the initial string followed by the
concatenation of all blocks. -/
theorem foldl_append_eq (f : Product → Str) :
    ∀ (l : List Product) (init : Str),
      l.foldl (fun r p => r ++ f p) init = init ++ concatAll (l.map f) := by
  intro l
  induction l with
  | nil =>
    intro init
    simp [concatAll]
  | cons p rest ih =>
    intro init
    simp only [List.foldl_cons, List.map_cons, concatAll, List.foldr_cons]
    rw [ih (init ++ f p)]
    simp [concatAll, List.append_assoc]

/-- A product block always consists of the heading, the lines of the
first 3 variants, and a blank line (the variant-presence test of
src/index.js line 649 is redundant for an empty variant list). -/
theorem productBlock_eq (p : Product) :
    productBlock p =
      productHeaderPart p ++ concatAll ((p.variants.take 3).map variantLine) ++ "\n".toList := by
  unfold productBlock
  by_cases h : 0 < p.variants.length
  · rw [if_pos h]
  · rw [if_neg h]
    have hnil : p.variants = [] := by
      cases hv : p.variants with
      | nil => rfl
      | cons v vs => rw [hv] at h; simp at h
    rw [hnil]
    simp [concatAll]

/-- C7: on a non-empty filtered list the formatted string is the header
reporting the full count, the blocks of only the first 20 products
(each showing at most the first 3 variants), the overflow suffix
reporting exactly `length - 20` when more than 20 matched, and the
closing call-to-action. -/
theorem formatProductResponse_caps (ps : List Product) (ws : List Str) (h : ps ≠ []) :
    formatProductResponse ps ws =
      foundHeader ps.length
        ++ concatAll ((ps.take 20).map (fun p =>
            productHeaderPart p ++ concatAll ((p.variants.take 3).map variantLine) ++ "\n".toList))
        ++ (if 20 < ps.length then moreSuffix (ps.length - 20) else [])
        ++ callToAction := by
  have hne : ps.isEmpty = false := List.isEmpty_eq_false.mpr h
  simp only [formatProductResponse, hne, Bool.false_eq_true, if_false]
  rw [foldl_append_eq productBlock]
  rw [show productBlock = (fun p => productHeaderPart p
      ++ concatAll ((p.variants.take 3).map variantLine) ++ "\n".toList) from funext productBlock_eq]
  by_cases h20 : 20 < ps.length
  · rw [if_pos h20, if_pos h20]
  · rw [if_neg h20, if_neg h20]
    simp

/-- C7 witness: a 57-product list renders 20 blocks, reports 57 in the
header and 37 in the overflow suffix. -/
theorem formatProductResponse_caps_witness :
    formatProductResponse (List.replicate 57 tinyRuby) [] =
      foundHeader (List.replicate 57 tinyRuby).length
        ++ concatAll (((List.replicate 57 tinyRuby).take 20).map (fun p =>
            productHeaderPart p ++ concatAll ((p.variants.take 3).map variantLine) ++ "\n".toList))
        ++ (if 20 < (List.replicate 57 tinyRuby).length
            then moreSuffix ((List.replicate 57 tinyRuby).length - 20) else [])
        ++ callToAction :=
  formatProductResponse_caps (List.replicate 57 tinyRuby) [] (by simp)

/-- C8 counterexample: in the empty-result case the reply is the
"could not find" message, which does not end with the call-to-action
sentence. -/
theorem callToAction_missing_counterexample :
    ¬ callToAction <:+ formatProductResponse [] ["ruby".toList] := by
  decide

/-- C8 (amended): for every non-empty product list the formatted reply
ends with the fixed call-to-action sentence; the empty-result case ends
with the fixed no-result message instead. -/
theorem callToAction_suffix (ps : List Product) (ws : List Str) (h : ps ≠ []) :
    callToAction <:+ formatProductResponse ps ws := by
  have hne : ps.isEmpty = false := List.isEmpty_eq_false.mpr h
  simp only [formatProductResponse, hne, Bool.false_eq_true, if_false]
  exact List.suffix_append _ _

/-- C8 witness: a concrete non-empty reply ends with the call-to-action. -/
theorem callToAction_suffix_witness :
    callToAction <:+ formatProductResponse [tinyRuby] [] :=
  callToAction_suffix [tinyRuby] [] (by decide)

/-- Starting with a needle is preserved by shortening the needle to a
prefix. -/
theorem startsWith_take (n : Str) :
    ∀ (hay : Str) (k : Nat), startsWith hay n = true → startsWith hay (n.take k) = true := by
  induction n with
  | nil =>
    intro hay k _
    rw [List.take_nil]
    cases hay <;> rfl
  | cons d ds ih =>
    intro hay k h
    cases hay with
    | nil => simp [startsWith] at h
    | cons c cs =>
      cases k with
      | zero => rfl
      | succ k =>
        simp only [List.take_succ_cons]
        simp only [startsWith, Bool.and_eq_true] at h ⊢
        exact ⟨h.1, ih cs k h.2⟩

/-- Containment of a needle is preserved by shortening the needle to a
prefix. -/
theorem strIncludes_take (n : Str) (k : Nat) :
    ∀ hay : Str, strIncludes hay n = true → strIncludes hay (n.take k) = true := by
  intro hay
  induction hay with
  | nil =>
    intro h
    cases n with
    | nil => rw [List.take_nil]; exact h
    | cons d ds => simp [strIncludes, startsWith] at h
  | cons c cs ih =>
    intro h
    simp only [strIncludes, Bool.or_eq_true] at h ⊢
    rcases h with h | h
    · exact Or.inl (startsWith_take n (c :: cs) k h)
    · exact Or.inr (ih h)

/-- Every token accepted by the match decision is also accepted by the
looser diagnostic re-check. -/
theorem matchToken_imp_diagToken (st w : Str) (h : matchToken st w = true) :
    diagToken st w = true := by
  unfold matchToken at h
  unfold diagToken
  simp only [Bool.or_eq_true, Bool.and_eq_true, decide_eq_true_eq] at h ⊢
  rcases h with h | ⟨h5, hin⟩
  · exact Or.inl h
  · refine Or.inr ⟨by omega, ?_⟩
    rcases hin with hsub | ⟨_, hsim⟩
    · left
      unfold substringScan at hsub ⊢
      rw [List.any_eq_true] at hsub ⊢
      obtain ⟨i, hi, hinc⟩ := hsub
      rw [List.mem_range] at hi
      have h47 : w.length * 4 / 10 ≤ w.length * 7 / 10 :=
        Nat.div_le_div_right (Nat.mul_le_mul_left _ (by omega))
      have h67 : w.length * 6 / 10 ≤ w.length * 7 / 10 :=
        Nat.div_le_div_right (Nat.mul_le_mul_left _ (by omega))
      have hMdec : w.length * 4 / 10 ≤ max 5 (w.length * 7 / 10) :=
        le_trans h47 (le_max_right _ _)
      have hMM : max 3 (w.length * 6 / 10) ≤ max 5 (w.length * 7 / 10) :=
        max_le (le_trans (by omega) (le_max_left _ _)) (le_trans h67 (le_max_right _ _))
      have hbound : w.length - max 5 (w.length * 7 / 10) ≤ w.length - w.length * 4 / 10 :=
        Nat.sub_le_sub_left hMdec _
      refine ⟨i, List.mem_range.mpr (lt_of_lt_of_le hi (Nat.add_le_add_right hbound 1)), ?_⟩
      have heq : substringJs w i (i + max 3 (w.length * 6 / 10)) =
          (substringJs w i (i + max 5 (w.length * 7 / 10))).take (max 3 (w.length * 6 / 10)) := by
        unfold substringJs
        rw [List.take_drop, List.take_take]
        rw [Nat.min_eq_left (Nat.add_le_add_left hMM i)]
      rw [heq]
      exact strIncludes_take _ _ _ hinc
    · exact Or.inr hsim

/-- C10: whenever the match decision accepts a product, the diagnostic
`matchedWords` list recomputed for logging is non-empty. -/
theorem hasMatch_matchedWords (p : Product) (ws : List Str) (h : hasMatch p ws = true) :
    matchedWords p ws ≠ [] := by
  unfold hasMatch at h
  obtain ⟨w, hw, hm⟩ := List.any_eq_true.mp h
  unfold matchedWords
  exact List.ne_nil_of_mem
    (List.mem_filter.mpr ⟨hw, matchToken_imp_diagToken (searchTextOf p) w hm⟩)

/-- C10 witness: a concrete accepted product has a non-empty diagnostic
word list. -/
theorem hasMatch_matchedWords_witness :
    matchedWords tinyRuby ["ruby".toList] ≠ [] :=
  hasMatch_matchedWords tinyRuby ["ruby".toList] (by decide)

end RezaGem
